import Mathlib

/-!
Shallow embedding of the related-applications similarity engine of
`src/aswg/related_apps.py` (class `RelatedAppsFinder`), together with the data
model it consumes (`Application` from `data_processor.py`).

Modelling conventions:
* Python `str` is Lean `String` (character-level, ASCII semantics for the
  character classes used by the code's regexes and `str.lower`).
* Python `float` weights are modelled as `ℚ` (the literals 1.3, 1.2, 1.1, 0.9
  are exact decimals); `int(x)` is truncation toward zero.
* Python sets of strings are `Finset String`; dicts are association lists or
  functions.
* Python truthiness is modelled explicitly where the code relies on it
  (`app.stars and target_app.stars`, `if not app.license`, `if self.licenses_data`,
  `if target_app.fork_of`).
-/

/-! ### Character helpers (ASCII semantics of the CPython operations used) -/

/-- Python regex `\s` (ASCII): space, tab, newline, carriage return,
vertical tab, form feed. -/
def isSpaceChar (c : Char) : Bool :=
  c = ' ' || c = '\t' || c = '\n' || c = '\r' || c = '\x0b' || c = '\x0c'

/-- Python regex `\w` (ASCII): alphanumeric or underscore. -/
def isWordChar (c : Char) : Bool :=
  c.isAlphanum || c = '_'

/-- `str.lower()`, character by character (ASCII). -/
def pyLower (s : String) : String :=
  ⟨s.data.map Char.toLower⟩

/-! ### Text normalization inside `_extract_significant_phrases`
(`related_apps.py` lines 266-271):
`text = description.lower()`;
`text = re.sub(r"[^\w\s\-]", " ", text)`;
`text = re.sub(r"\s+", " ", text).strip()`. -/

/-- The substitution `re.sub(r"[^\w\s\-]", " ", ·)` applied to one character. -/
def subChar (c : Char) : Char :=
  if isWordChar c || isSpaceChar c || c = '-' then c else ' '

/-- `re.sub(r"\s+", " ", ·)`: collapse every run of whitespace into a single
space.  The Boolean flag records whether we are inside a whitespace run. -/
def collapseAux : Bool → List Char → List Char
  | _, [] => []
  | inRun, c :: cs =>
    if isSpaceChar c then
      if inRun then collapseAux true cs else ' ' :: collapseAux true cs
    else c :: collapseAux false cs

def collapseWs (l : List Char) : List Char := collapseAux false l

/-- `str.strip()`: drop leading and trailing whitespace. -/
def stripChars (l : List Char) : List Char :=
  ((l.dropWhile isSpaceChar).reverse.dropWhile isSpaceChar).reverse

def pyStrip (s : String) : String := ⟨stripChars s.data⟩

/-- The full normalization pipeline of `_extract_significant_phrases`. -/
def normalizeText (s : String) : String :=
  ⟨stripChars (collapseWs ((s.data.map Char.toLower).map subChar))⟩

/-! ### `str.split()` (no separator): split on whitespace runs, no empties. -/

def wordsAux (acc : List Char) : List Char → List (List Char)
  | [] => if acc.isEmpty then [] else [acc.reverse]
  | c :: cs =>
    if isSpaceChar c then
      if acc.isEmpty then wordsAux [] cs else acc.reverse :: wordsAux [] cs
    else wordsAux (c :: acc) cs

def pySplit (s : String) : List String :=
  (wordsAux [] s.data).map fun l => ⟨l⟩

/-- `" ".join(ws)`. -/
def joinSp : List String → String
  | [] => ""
  | [w] => w
  | w :: ws => w ++ " " ++ joinSp ws

/-- `str.isdigit()` (ASCII): nonempty and all characters are digits. -/
def pyIsDigit (s : String) : Bool :=
  !s.data.isEmpty && s.data.all Char.isDigit

/-! ### Generic single-word denylist (`_is_generic_word`, lines 291-432). -/

def generic_words : List String :=
  [ "the", "a", "an", "and", "or", "but", "in", "on", "at", "to", "for", "of",
    "with", "by", "from", "up", "about", "into", "through", "during", "before",
    "after", "above", "below", "between", "among", "your",
    "is", "are", "was", "were", "be", "been", "have", "has", "had", "do",
    "does", "did", "will", "would", "could", "should", "may", "might", "must",
    "can",
    "that", "which", "who", "when", "where", "why", "how", "all", "any",
    "both", "each", "few", "more", "most", "other", "some", "such", "only",
    "own", "same",
    "so", "than", "too", "very", "just", "now", "also", "different", "small",
    "large", "new", "old", "good", "great", "first", "last", "long", "little",
    "right", "big", "high", "following", "local", "sure",
    "using", "used", "use", "like", "way", "make", "get", "go", "know",
    "take", "see", "come", "think", "look", "want", "give", "without",
    "including", "provides", "allows", "supports",
    "best", "new", "free", "powerful", "easy", "simple", "fast", "secure",
    "reliable", "open-source", "open source", "self-hosted", "self hosted",
    "community", "enterprise", "lightweight", "high-performance" ]

def is_generic_word (w : String) : Bool := w ∈ generic_words

/-! ### Phrase significance (`_is_significant_phrase`, lines 434-478). -/

/-- `re.search(r"^(alt₁|...|altₙ)\s", phrase)`: the phrase starts with one of
the literal alternatives immediately followed by a whitespace character. -/
def startsWithAltSp (alts : List String) (p : String) : Bool :=
  alts.any fun a =>
    a.data.isPrefixOf p.data &&
    (match p.data.drop a.data.length with
     | c :: _ => isSpaceChar c
     | [] => false)

/-- The four `useless_patterns` regexes of `_is_significant_phrase`. -/
def matchesUselessPattern (p : String) : Bool :=
  startsWithAltSp ["with", "and", "for", "the", "a", "an"] p ||
  startsWithAltSp ["is", "are", "can", "will", "has", "have"] p ||
  startsWithAltSp ["you", "your", "it", "its", "this", "that"] p ||
  startsWithAltSp ["also", "using", "used", "like", "such"] p

def is_significant_phrase (phrase : String) (length : Nat) : Bool :=
  if length = 1 then
    decide (3 < phrase.length) && !pyIsDigit phrase && !is_generic_word phrase
  else
    let words := pySplit phrase
    let genericCount := (words.filter is_generic_word).length
    -- `generic_word_count > len(words) / 2` (exact: `g > n/2 ⟺ 2g > n`
    -- for integers; the float division is exact at these magnitudes)
    if 2 * genericCount > words.length then false
    else if matchesUselessPattern phrase then false
    else if 1 < length then !words.all (fun w => w.length ≤ 2)
    else false

/-! ### Phrase extraction (`_extract_significant_phrases`, lines 261-289). -/

/-- All contiguous windows of `L` consecutive words, in order
(`for i in range(len(words) - length + 1): words[i : i + length]`,
with the empty range when fewer than `L` words remain). -/
def windowsOf (L : Nat) : List String → List (List String)
  | [] => []
  | w :: ws =>
    if (w :: ws).length < L then []
    else (w :: ws).take L :: windowsOf L ws

/-- The significant phrases contributed by windows of length `L`: the inner
loop body, including the `continue` for generic single words. -/
def lengthCandidates (L : Nat) (ws : List String) : List String :=
  (windowsOf L ws).filterMap fun win =>
    let phrase := joinSp win
    if L = 1 && is_generic_word phrase then none
    else if is_significant_phrase phrase L then some phrase else none

/-- `_extract_significant_phrases`; the argument is `Option String` because the
code guards `if not description` (covering both `None` and `""`). -/
def extract_significant_phrases (description : Option String) : Finset String :=
  match description with
  | none => ∅
  | some d =>
    if d = "" then ∅
    else
      let ws := pySplit (normalizeText d)
      (([1, 2, 3, 4].map fun L => lengthCandidates L ws).flatten).toFinset

/-! ### Phrase weighting (`_calculate_phrase_weight`, lines 210-259). -/

/-- `re.search(r"\b\w+[-_]\w+\b", phrase)`: somewhere in the phrase a word
character is followed by `-` or `_` followed by a word character (taking the
maximal word-character runs on both sides realizes the `\b`/`\w+` parts). -/
def hasCompoundTriple : List Char → Bool
  | c1 :: c2 :: c3 :: rest =>
    (isWordChar c1 && (c2 = '-' || c2 = '_') && isWordChar c3) ||
    hasCompoundTriple (c2 :: c3 :: rest)
  | _ => false

def hasCompoundToken (p : String) : Bool := hasCompoundTriple p.data

/-- `any(word[0].isupper() for word in phrase.split() if len(word) > 1)`. -/
def hasCapitalizedWord (p : String) : Bool :=
  ((pySplit p).filter fun w => decide (1 < w.length)).any fun w =>
    match w.data with
    | c :: _ => c.isUpper
    | [] => false

/-- Sublist-of-consecutive-characters test (`sub in s` for Python strings). -/
def containsSub (sub : List Char) : List Char → Bool
  | [] => sub.isEmpty
  | c :: cs => sub.isPrefixOf (c :: cs) || containsSub sub cs

def common_buzzwords : List String :=
  [ "server", "web", "management", "platform", "system", "application",
    "lightweight", "high-performance", "modern" ]

/-- Runs of consecutive word characters (the `\b`-delimited tokens). -/
def wordRuns : List Char → List (List Char)
  | [] => []
  | c :: cs =>
    if isWordChar c then
      match wordRuns cs, cs with
      | r :: rs, d :: _ =>
        if isWordChar d then (c :: r) :: rs else [c] :: r :: rs
      | _, _ => [[c]]
    else wordRuns cs

/-- `re.search(r"\b\d+\b", phrase)`: some maximal run of word characters
consists entirely of digits. -/
def hasStandaloneNumber (p : String) : Bool :=
  (wordRuns p.data).any fun r => !r.isEmpty && r.all Char.isDigit

/-- `_calculate_phrase_weight` (floats modelled as `ℚ`; the multipliers are
exact decimals). -/
def calculate_phrase_weight (phrase : String) : ℚ :=
  let words := pySplit phrase
  let wordCount := words.length
  let base : ℚ :=
    if wordCount = 1 then 2 else if wordCount = 2 then 4
    else if wordCount = 3 then 6 else 8
  let w1 := if hasCompoundToken phrase then base * (13 / 10) else base
  let w2 := if hasCapitalizedWord phrase then w1 * (12 / 10) else w1
  -- `sum(len(word) for word in words) / len(words) > 6`
  -- (exact: `s/n > 6 ⟺ s > 6n` for integers at these magnitudes)
  let avgOk : Bool := decide (6 * words.length < (words.map String.length).sum)
  let w3 := if avgOk then w2 * (11 / 10) else w2
  let w4 :=
    if common_buzzwords.any (fun b => containsSub b.data phrase.data)
    then w3 * (9 / 10) else w3
  if hasStandaloneNumber phrase then w4 * (11 / 10) else w4

/-- Python `int(q)`: truncation toward zero. -/
def intTrunc (q : ℚ) : ℤ := q.num.tdiv (q.den : ℤ)

/-! ### Data model (`Application` from `data_processor.py`, restricted to the
fields the similarity engine reads; optional GitHub metadata is `Option`,
list-valued fields default to `[]` as set by `__post_init__`). -/

structure Application where
  id : String
  name : String
  description : String := ""
  categories : List String := []
  license : List String := []
  platforms : List String := []
  stars : Option Nat := none
  depends_3rdparty : Bool := false
  fork_of : Option String := none
  alternative_to : List String := []
deriving DecidableEq

/-- One entry of the `licenses_data` registry; `free` is `Option Bool` because
the code reads it with `lic_info.get("free", True)`. -/
structure LicenseEntry where
  free : Option Bool := none
deriving DecidableEq

/-- The configuration values the engine reads, flattened from the nested
`config` dictionary; the default of each field is the default the code passes
to the corresponding `.get` call. -/
structure Config where
  semantic_similarity_enabled : Bool := true
  categories_enabled : Bool := true
  categories_points_per_match : ℤ := 4
  alternatives_enabled : Bool := true
  alternatives_points_per_match : ℤ := 6
  forks_enabled : Bool := true
  forks_same_parent_score : ℤ := 8
  platforms_enabled : Bool := true
  platforms_points_per_match : ℤ := 2
  license_enabled : Bool := true
  license_same_type_score : ℤ := 2
  popularity_enabled : Bool := true
  popularity_same_tier_score : ℤ := 1
  dependencies_enabled : Bool := true
  dependencies_same_status_score : ℤ := 1
  min_score : ℤ := 3
  max_results : Nat := 6
  tiebreakers : List String := ["stars", "name"]

/-! ### Semantic similarity (`_precompute_app_phrases` lines 174-184 and
`_calculate_semantic_similarity` lines 186-208). -/

/-- `_precompute_app_phrases`: a dict keyed by `app.id` (later entries
overwrite earlier ones, as in a Python dict), read with `.get(id, set())`. -/
def precompute_app_phrases (apps : List Application) : String → Finset String :=
  fun i =>
    match apps.reverse.find? (fun a => a.id = i) with
    | some a =>
      if a.description ≠ "" then extract_significant_phrases (some a.description)
      else ∅
    | none => ∅

/-- `_calculate_semantic_similarity`. -/
def calculate_semantic_similarity (target app : Application)
    (app_phrases : String → Finset String) : ℤ :=
  let target_phrases := app_phrases target.id
  let app_phrases_set := app_phrases app.id
  if target_phrases = ∅ ∨ app_phrases_set = ∅ then 0
  else
    let common_phrases := target_phrases ∩ app_phrases_set
    if common_phrases = ∅ then 0
    else min (intTrunc (common_phrases.sum calculate_phrase_weight)) 25

/-! ### The seven metadata signals (`find_related_apps` lines 69-138,
`_calculate_alternative_similarity`, `_calculate_fork_similarity`,
`is_app_nonfree`, `get_popularity_tier`). -/

def get_popularity_tier (stars : Nat) : String :=
  if stars ≥ 10000 then "mega"
  else if stars ≥ 5000 then "highly"
  else if stars ≥ 1000 then "popular"
  else if stars ≥ 100 then "moderate"
  else "emerging"

/-- `if self.licenses_data:` — Python truthiness of `Optional[Dict]`: `None`
and the empty dict are both falsy. -/
def licensesTruthy : Option (List (String × LicenseEntry)) → Bool
  | none => false
  | some l => !l.isEmpty

/-- `is_app_nonfree` (lines 531-546).  NOTE: the fallback marker literal in the
source file is the mojibake string "âŠ˜ Proprietary" (UTF-8 bytes
`c3a2 c5a0 cb9c`), not "⊘ Proprietary" (U+2298). -/
def is_app_nonfree (licenses_data : Option (List (String × LicenseEntry)))
    (app : Application) : Bool :=
  if app.license.isEmpty then false
  else if licensesTruthy licenses_data then
    let nonfree_licenses :=
      ((licenses_data.getD []).filter fun p => !(p.2.free.getD true)).map Prod.fst
    app.license.any fun lic => lic ∈ nonfree_licenses
  else
    app.license.any fun lic => lic ∈ ["âŠ˜ Proprietary"]

/-- Signal 1 (semantic similarity), with its call-site `enabled` gate. -/
def semanticScore (cfg : Config) (phr : String → Finset String)
    (target app : Application) : ℤ :=
  if cfg.semantic_similarity_enabled then
    calculate_semantic_similarity target app phr
  else 0

/-- Signal 2 (shared categories). -/
def categoriesScore (cfg : Config) (target app : Application) : ℤ :=
  if cfg.categories_enabled then
    ((app.categories.toFinset ∩ target.categories.toFinset).card : ℤ) *
      cfg.categories_points_per_match
  else 0

/-- `_calculate_alternative_similarity` (lines 480-505); truthiness of the two
`alternative_to` lists is non-emptiness. -/
def calculate_alternative_similarity (cfg : Config)
    (target_app app : Application) : ℤ :=
  if !cfg.alternatives_enabled then 0
  else if !target_app.alternative_to.isEmpty && !app.alternative_to.isEmpty then
    let target_alts := (target_app.alternative_to.map fun a => pyStrip (pyLower a)).toFinset
    let app_alts := (app.alternative_to.map fun a => pyStrip (pyLower a)).toFinset
    ((target_alts ∩ app_alts).card : ℤ) * cfg.alternatives_points_per_match
  else 0

/-- Signal 3, with its call-site `enabled` gate. -/
def alternativesScore (cfg : Config) (target app : Application) : ℤ :=
  if cfg.alternatives_enabled then calculate_alternative_similarity cfg target app
  else 0

/-- `_calculate_fork_similarity` (lines 507-529); truthiness of
`Optional[str]` is "present and nonempty". -/
def calculate_fork_similarity (cfg : Config) (target_app app : Application) : ℤ :=
  if !cfg.forks_enabled then 0
  else
    match target_app.fork_of, app.fork_of with
    | some tf, some af =>
      if tf ≠ "" ∧ af ≠ "" ∧ pyStrip (pyLower tf) = pyStrip (pyLower af) then
        cfg.forks_same_parent_score
      else 0
    | _, _ => 0

/-- Signal 4, with its call-site `enabled` gate. -/
def forksScore (cfg : Config) (target app : Application) : ℤ :=
  if cfg.forks_enabled then calculate_fork_similarity cfg target app else 0

/-- Signal 5 (shared platforms). -/
def platformsScore (cfg : Config) (target app : Application) : ℤ :=
  if cfg.platforms_enabled then
    ((app.platforms.toFinset ∩ target.platforms.toFinset).card : ℤ) *
      cfg.platforms_points_per_match
  else 0

/-- Signal 6 (license-freedom parity); both `license` lists must be truthy
(nonempty). -/
def licenseScore (cfg : Config) (ld : Option (List (String × LicenseEntry)))
    (target app : Application) : ℤ :=
  if cfg.license_enabled then
    if !app.license.isEmpty && !target.license.isEmpty then
      if is_app_nonfree ld target = is_app_nonfree ld app then
        cfg.license_same_type_score
      else 0
    else 0
  else 0

/-- Signal 7 (popularity-tier parity); `app.stars and target_app.stars` is
Python truthiness, so `Some 0` does not qualify. -/
def popularityScore (cfg : Config) (target app : Application) : ℤ :=
  if cfg.popularity_enabled then
    match app.stars, target.stars with
    | some astars, some tstars =>
      if astars ≠ 0 ∧ tstars ≠ 0 ∧
          get_popularity_tier tstars = get_popularity_tier astars then
        cfg.popularity_same_tier_score
      else 0
    | _, _ => 0
  else 0

/-- Signal 8 (third-party-dependency parity). -/
def dependenciesScore (cfg : Config) (target app : Application) : ℤ :=
  if cfg.dependencies_enabled then
    if app.depends_3rdparty = target.depends_3rdparty then
      cfg.dependencies_same_status_score
    else 0
  else 0

/-- The aggregate per-candidate score accumulated by the loop body of
`find_related_apps` (lines 60-138). -/
def totalScore (cfg : Config) (ld : Option (List (String × LicenseEntry)))
    (phr : String → Finset String) (target app : Application) : ℤ :=
  semanticScore cfg phr target app +
  categoriesScore cfg target app +
  alternativesScore cfg target app +
  forksScore cfg target app +
  platformsScore cfg target app +
  licenseScore cfg ld target app +
  popularityScore cfg target app +
  dependenciesScore cfg target app

/-! ### Sorting (`find_related_apps` lines 148-163).  The Python sort key is a
tuple `(-score, tiebreaker₁, tiebreaker₂, ...)`; the components after the score
are ints (for `"stars"`) or strings (for `"name"`), compared lexicographically.
`list.sort` is stable; it is modelled by `List.mergeSort`, which is stable. -/

/-- One component of the composite sort key. -/
inductive KeyComp where
  | int (n : ℤ)
  | str (s : String)
deriving DecidableEq

/-- Strict comparison of key components.  For a fixed `tiebreakers` list every
item's key has the same shape, so the mixed `int`/`str` cases never arise
between two actual keys; they are ordered arbitrarily (`int` first) to keep the
order total. -/
def keyCompLT : KeyComp → KeyComp → Bool
  | .int a, .int b => decide (a < b)
  | .str a, .str b => decide (a < b)
  | .int _, .str _ => true
  | .str _, .int _ => false

/-- Lexicographic (non-strict) comparison of composite keys, as Python
compares tuples. -/
def keyListLE : List KeyComp → List KeyComp → Bool
  | [], _ => true
  | _ :: _, [] => false
  | a :: as, b :: bs => keyCompLT a b || (a = b && keyListLE as bs)

/-- `app.stars or 0` (Python `or`: `Some 0` also yields `0`). -/
def starsOrZero : Option Nat → Nat
  | some n => n
  | none => 0

/-- The tiebreaker components of the sort key: `"stars"` contributes
`-(app.stars or 0)`, `"name"` contributes `app.name.lower()`, anything else
contributes nothing. -/
def tiebreakerComps (tiebreakers : List String) (app : Application) : List KeyComp :=
  tiebreakers.filterMap fun t =>
    if t = "stars" then some (.int (-(starsOrZero app.stars : ℤ)))
    else if t = "name" then some (.str (pyLower app.name))
    else none

/-- `sort_key(item)` for an item `(app, score)`. -/
def sort_key (cfg : Config) (item : Application × ℤ) : List KeyComp :=
  .int (-item.2) :: tiebreakerComps cfg.tiebreakers item.1

/-- The ordering used by `related.sort(key=sort_key)`. -/
def itemLE (cfg : Config) (x y : Application × ℤ) : Bool :=
  keyListLE (sort_key cfg x) (sort_key cfg y)

/-! ### The ranking pipeline (`find_related_apps`, lines 31-172). -/

/-- The `related` list built by the candidate loop: skip the target itself,
score each remaining candidate, keep those with `score >= min_score`
(`min_score` default 3), in input order.  (The `score_breakdown` dict carried
alongside each tuple is only printed under `debug` and is not modelled.) -/
def scoredCandidates (cfg : Config) (ld : Option (List (String × LicenseEntry)))
    (phr : String → Finset String) (target : Application)
    (apps : List Application) : List (Application × ℤ) :=
  (((apps.filter fun a => !(a.id = target.id)).map
      fun a => (a, totalScore cfg ld phr target a)).filter
    fun item => cfg.min_score ≤ item.2)

/-- `related.sort(key=sort_key)` (stable). -/
def sortedCandidates (cfg : Config) (ld : Option (List (String × LicenseEntry)))
    (phr : String → Finset String) (target : Application)
    (apps : List Application) : List (Application × ℤ) :=
  (scoredCandidates cfg ld phr target apps).mergeSort (itemLE cfg)

/-- The phrase map `find_related_apps` uses: precomputed when semantic
similarity is enabled, never read otherwise. -/
def appPhrasesFor (cfg : Config) (apps : List Application) :
    String → Finset String :=
  if cfg.semantic_similarity_enabled then precompute_app_phrases apps
  else fun _ => ∅

/-- The pure body of `find_related_apps` given the phrase map: sort and return
the first `max_results` applications. -/
def findRelatedCore (cfg : Config) (ld : Option (List (String × LicenseEntry)))
    (phr : String → Finset String) (target : Application)
    (apps : List Application) : List Application :=
  ((sortedCandidates cfg ld phr target apps).take cfg.max_results).map Prod.fst

/-- `find_related_apps` on a fresh finder (no cache interaction). -/
def find_related_apps (cfg : Config) (ld : Option (List (String × LicenseEntry)))
    (target : Application) (apps : List Application) : List Application :=
  findRelatedCore cfg ld (appPhrasesFor cfg apps) target apps

/-! ### The phrase cache (lines 23-29 and 44-54).  `id(all_applications)` is an
opaque identity token, modelled as a `Nat` supplied by the caller. -/

structure FinderState where
  cached_app_phrases : Option (String → Finset String)
  cached_app_list_id : Option Nat

/-- `clear_cache` / the state of a freshly constructed finder. -/
def clearedState : FinderState := ⟨none, none⟩

/-- `find_related_apps` including the cache protocol: recompute and store the
phrase map when the cache is empty or keyed to a different list identity,
otherwise reuse the cached map.  (When semantic similarity is disabled the
cache is neither read nor written.) -/
def find_related_apps_cached (cfg : Config)
    (ld : Option (List (String × LicenseEntry))) (st : FinderState)
    (listId : Nat) (target : Application) (apps : List Application) :
    List Application × FinderState :=
  if cfg.semantic_similarity_enabled then
    match st.cached_app_phrases with
    | some phr =>
      if st.cached_app_list_id = some listId then
        (findRelatedCore cfg ld phr target apps, st)
      else
        let fresh := precompute_app_phrases apps
        (findRelatedCore cfg ld fresh target apps, ⟨some fresh, some listId⟩)
    | none =>
      let fresh := precompute_app_phrases apps
      (findRelatedCore cfg ld fresh target apps, ⟨some fresh, some listId⟩)
  else
    (findRelatedCore cfg ld (fun _ => ∅) target apps, st)

/-! ## Concrete instances used by witnesses and counterexamples -/

/-- Two applications with a recorded star count of `0`. -/
def zeroStarsA : Application :=
  { id := "a", name := "Alpha", stars := some 0 }

def zeroStarsB : Application :=
  { id := "b", name := "Beta", stars := some 0 }

def megaA : Application := { id := "ma", name := "MegaA", stars := some 12000 }

def megaB : Application := { id := "mb", name := "MegaB", stars := some 11000 }

/-- `_calculate_phrase_weight` with the capitalization-boost step removed;
used to state that the boost never fires on extracted phrases. -/
def calculate_phrase_weight_nocap (phrase : String) : ℚ :=
  let words := pySplit phrase
  let wordCount := words.length
  let base : ℚ :=
    if wordCount = 1 then 2 else if wordCount = 2 then 4
    else if wordCount = 3 then 6 else 8
  let w1 := if hasCompoundToken phrase then base * (13 / 10) else base
  let avgOk : Bool := decide (6 * words.length < (words.map String.length).sum)
  let w3 := if avgOk then w1 * (11 / 10) else w1
  let w4 :=
    if common_buzzwords.any (fun b => containsSub b.data phrase.data)
    then w3 * (9 / 10) else w3
  if hasStandaloneNumber phrase then w4 * (11 / 10) else w4

def tW : Application := { id := "t", name := "Target", categories := ["Sync"] }

def bW : Application := { id := "b", name := "Beta", categories := ["Sync"] }

def appsW : List Application := [tW, bW]

def b1W : Application := { id := "b1", name := "Beta", categories := ["Sync"] }

def b2W : Application := { id := "b2", name := "beta", categories := ["Sync"] }

def apps2W : List Application := [tW, b1W, b2W]

def phrW : String → Finset String := fun i =>
  if i = "t" then {"file sync"}
  else if i = "b" then {"file sync", "sync tool"} else ∅

/-! ## Order lemmas for the composite sort key -/

theorem keyCompLT_trans {a b c : KeyComp} (h1 : keyCompLT a b = true)
    (h2 : keyCompLT b c = true) : keyCompLT a c = true := by
  cases a <;> cases b <;> cases c <;>
    simp_all only [keyCompLT, decide_eq_true_eq] <;>
    first
    | trivial
    | exact lt_trans h1 h2

theorem keyCompLT_total3 (a b : KeyComp) :
    keyCompLT a b = true ∨ a = b ∨ keyCompLT b a = true := by
  cases a with
  | int n =>
    cases b with
    | int m =>
      rcases lt_trichotomy n m with h | h | h
      · exact Or.inl (by simp [keyCompLT, h])
      · exact Or.inr (Or.inl (by rw [h]))
      · exact Or.inr (Or.inr (by simp [keyCompLT, h]))
    | str s => exact Or.inl rfl
  | str s =>
    cases b with
    | int m => exact Or.inr (Or.inr rfl)
    | str t =>
      rcases lt_trichotomy s t with h | h | h
      · exact Or.inl (by simp [keyCompLT, h])
      · exact Or.inr (Or.inl (by rw [h]))
      · exact Or.inr (Or.inr (by simp [keyCompLT, h]))

theorem keyListLE_refl (l : List KeyComp) : keyListLE l l = true := by
  induction l with
  | nil => rfl
  | cons a as ih => simp [keyListLE, ih]

theorem keyListLE_trans :
    ∀ {l1 l2 l3 : List KeyComp}, keyListLE l1 l2 = true →
      keyListLE l2 l3 = true → keyListLE l1 l3 = true
  | [], _, _, _, _ => rfl
  | _ :: _, [], _, h1, _ => by simp [keyListLE] at h1
  | _ :: _, _ :: _, [], _, h2 => by simp [keyListLE] at h2
  | a :: as, b :: bs, c :: cs, h1, h2 => by
    simp only [keyListLE, Bool.or_eq_true, Bool.and_eq_true,
      decide_eq_true_eq] at h1 h2 ⊢
    rcases h1 with h1 | ⟨rfl, h1⟩
    · rcases h2 with h2 | ⟨rfl, h2⟩
      · exact Or.inl (keyCompLT_trans h1 h2)
      · exact Or.inl h1
    · rcases h2 with h2 | ⟨rfl, h2⟩
      · exact Or.inl h2
      · exact Or.inr ⟨rfl, keyListLE_trans h1 h2⟩

theorem keyListLE_total :
    ∀ (l1 l2 : List KeyComp), (keyListLE l1 l2 || keyListLE l2 l1) = true
  | [], _ => by simp [keyListLE]
  | _ :: _, [] => by simp [keyListLE]
  | a :: as, b :: bs => by
    simp only [keyListLE, Bool.or_eq_true, Bool.and_eq_true, decide_eq_true_eq]
    rcases keyCompLT_total3 a b with h | rfl | h
    · exact Or.inl (Or.inl h)
    · have h' := keyListLE_total as bs
      rw [Bool.or_eq_true] at h'
      rcases h' with h | h
      · exact Or.inl (Or.inr ⟨rfl, h⟩)
      · exact Or.inr (Or.inr ⟨rfl, h⟩)
    · exact Or.inr (Or.inl h)

theorem itemLE_trans (cfg : Config) (x y z : Application × ℤ)
    (h1 : itemLE cfg x y = true) (h2 : itemLE cfg y z = true) :
    itemLE cfg x z = true :=
  keyListLE_trans h1 h2

theorem itemLE_total (cfg : Config) (x y : Application × ℤ) :
    (itemLE cfg x y || itemLE cfg y x) = true :=
  keyListLE_total _ _

/-- **C2.** `find_related_apps` orders the retained candidates by the composite
key `sort_key` (negative total score first, then the configured tiebreakers —
`"stars"` as negative star count, `"name"` as lowercased name, unrecognized
names contributing nothing), and the sort is stable: two candidates with equal
composite keys keep their relative input order. -/
theorem c2_sort_order (cfg : Config) (ld : Option (List (String × LicenseEntry)))
    (phr : String → Finset String) (target : Application)
    (apps : List Application) :
    List.Pairwise (fun x y => itemLE cfg x y = true)
      (sortedCandidates cfg ld phr target apps) ∧
    (∀ x y : Application × ℤ, sort_key cfg x = sort_key cfg y →
      List.Sublist [x, y] (scoredCandidates cfg ld phr target apps) →
      List.Sublist [x, y] (sortedCandidates cfg ld phr target apps)) ∧
    (∀ (tbs : List String) (a : Application),
      tiebreakerComps tbs a =
        tiebreakerComps (tbs.filter fun t => t = "stars" || t = "name") a) := by
  refine ⟨?_, ?_, ?_⟩
  · exact List.sorted_mergeSort (itemLE_trans cfg) (itemLE_total cfg) _
  · intro x y hkey hsub
    have hxy : itemLE cfg x y = true := by
      unfold itemLE
      rw [hkey]
      exact keyListLE_refl _
    exact List.pair_sublist_mergeSort (itemLE_trans cfg) (itemLE_total cfg)
      hxy hsub
  · intro tbs a
    induction tbs with
    | nil => rfl
    | cons t ts ih =>
      simp only [tiebreakerComps, List.filterMap_cons] at ih ⊢
      rw [List.filter_cons]
      by_cases h1 : t = "stars"
      · subst h1
        simpa using ih
      · by_cases h2 : t = "name"
        · subst h2
          simpa [h1] using ih
        · simpa [h1, h2] using ih

/-- **C1.** For every configuration, license registry, target and candidate
list, `find_related_apps` returns at most `max_results` applications (default
6), never includes the target's id, and every returned application scored at
least `min_score` (default 3) against the target. -/
theorem c1_result_contract (cfg : Config)
    (ld : Option (List (String × LicenseEntry))) (target : Application)
    (apps : List Application) :
    (find_related_apps cfg ld target apps).length ≤ cfg.max_results ∧
    ∀ a ∈ find_related_apps cfg ld target apps,
      a.id ≠ target.id ∧
      cfg.min_score ≤ totalScore cfg ld (appPhrasesFor cfg apps) target a := by
  constructor
  · unfold find_related_apps findRelatedCore
    rw [List.length_map]
    exact List.length_take_le _ _
  · intro a ha
    unfold find_related_apps findRelatedCore at ha
    obtain ⟨⟨a', s⟩, hmem, rfl⟩ := List.mem_map.1 ha
    have hms : (a', s) ∈ sortedCandidates cfg ld (appPhrasesFor cfg apps) target apps :=
      List.mem_of_mem_take hmem
    have hsc : (a', s) ∈ scoredCandidates cfg ld (appPhrasesFor cfg apps) target apps :=
      List.mem_mergeSort.1 hms
    unfold scoredCandidates at hsc
    obtain ⟨hmap, hscore⟩ := List.mem_filter.1 hsc
    obtain ⟨x, hx, hxeq⟩ := List.mem_map.1 hmap
    obtain ⟨hxapps, hxid⟩ := List.mem_filter.1 hx
    obtain ⟨rfl, rfl⟩ := Prod.mk.injEq .. ▸ hxeq
    refine ⟨?_, ?_⟩
    · simpa using hxid
    · simpa using hscore

/-! ## Semantic score bounds -/

set_option maxHeartbeats 1000000 in
theorem calculate_phrase_weight_pos (p : String) :
    0 < calculate_phrase_weight p := by
  unfold calculate_phrase_weight
  dsimp only
  repeat' split
  all_goals norm_num

theorem intTrunc_nonneg {q : ℚ} (h : 0 ≤ q) : 0 ≤ intTrunc q :=
  Int.tdiv_nonneg (Rat.num_nonneg.2 h) (by positivity)

/-- **C3.** For every pair of applications and every phrase mapping, the
semantic contribution lies in `[0, 25]`; it is `0` when either phrase set is
empty or the sets do not intersect, and otherwise equals the sum of the phrase
weights over the intersection, truncated to an integer and capped at `25`. -/
theorem c3_semantic_bounds (target app : Application)
    (phr : String → Finset String) :
    0 ≤ calculate_semantic_similarity target app phr ∧
    calculate_semantic_similarity target app phr ≤ 25 ∧
    ((phr target.id = ∅ ∨ phr app.id = ∅ ∨ phr target.id ∩ phr app.id = ∅) →
      calculate_semantic_similarity target app phr = 0) ∧
    (phr target.id ∩ phr app.id ≠ ∅ →
      calculate_semantic_similarity target app phr =
        min (intTrunc ((phr target.id ∩ phr app.id).sum calculate_phrase_weight))
          25) := by
  have hsum : (0 : ℚ) ≤ (phr target.id ∩ phr app.id).sum calculate_phrase_weight :=
    Finset.sum_nonneg fun i _ => le_of_lt (calculate_phrase_weight_pos i)
  have hval : phr target.id ∩ phr app.id ≠ ∅ →
      calculate_semantic_similarity target app phr =
        min (intTrunc ((phr target.id ∩ phr app.id).sum calculate_phrase_weight))
          25 := by
    intro h3
    have h12 : ¬(phr target.id = ∅ ∨ phr app.id = ∅) := by
      rintro (h | h)
      · exact h3 (by rw [h]; exact Finset.empty_inter _)
      · exact h3 (by rw [h]; exact Finset.inter_empty _)
    unfold calculate_semantic_similarity
    dsimp only
    rw [if_neg h12, if_neg h3]
  have hzero : (phr target.id = ∅ ∨ phr app.id = ∅ ∨
      phr target.id ∩ phr app.id = ∅) →
      calculate_semantic_similarity target app phr = 0 := by
    intro h
    unfold calculate_semantic_similarity
    dsimp only
    by_cases h12 : phr target.id = ∅ ∨ phr app.id = ∅
    · rw [if_pos h12]
    · rw [if_neg h12]
      have h3 : phr target.id ∩ phr app.id = ∅ := by tauto
      rw [if_pos h3]
  have hbounds : 0 ≤ calculate_semantic_similarity target app phr ∧
      calculate_semantic_similarity target app phr ≤ 25 := by
    by_cases h3 : phr target.id ∩ phr app.id = ∅
    · rw [hzero (Or.inr (Or.inr h3))]
      norm_num
    · rw [hval h3]
      exact ⟨le_min (intTrunc_nonneg hsum) (by norm_num), min_le_right _ _⟩
  exact ⟨hbounds.1, hbounds.2, hzero, hval⟩
/-! ## Symmetry of the per-pair score -/

theorem semanticScore_comm (cfg : Config) (phr : String → Finset String)
    (a b : Application) : semanticScore cfg phr a b = semanticScore cfg phr b a := by
  unfold semanticScore calculate_semantic_similarity
  dsimp only
  by_cases h1 : phr a.id = ∅ <;> by_cases h2 : phr b.id = ∅ <;>
    simp [h1, h2, Finset.inter_comm]

theorem categoriesScore_comm (cfg : Config) (a b : Application) :
    categoriesScore cfg a b = categoriesScore cfg b a := by
  unfold categoriesScore
  rw [Finset.inter_comm]

theorem alternativesScore_comm (cfg : Config) (a b : Application) :
    alternativesScore cfg a b = alternativesScore cfg b a := by
  unfold alternativesScore calculate_alternative_similarity
  dsimp only
  rw [Bool.and_comm, Finset.inter_comm]

theorem forksScore_comm (cfg : Config) (a b : Application) :
    forksScore cfg a b = forksScore cfg b a := by
  unfold forksScore calculate_fork_similarity
  by_cases hE : cfg.forks_enabled
  · cases a.fork_of with
    | none => cases b.fork_of <;> simp [hE]
    | some tf =>
      cases b.fork_of with
      | none => simp [hE]
      | some af =>
        simp only [hE, eq_self_iff_true, if_true, Bool.not_true,
          Bool.false_eq_true, if_false]
        refine if_congr ?_ rfl rfl
        constructor
        · rintro ⟨h1, h2, h3⟩
          exact ⟨h2, h1, h3.symm⟩
        · rintro ⟨h1, h2, h3⟩
          exact ⟨h2, h1, h3.symm⟩
  · simp [hE]

theorem platformsScore_comm (cfg : Config) (a b : Application) :
    platformsScore cfg a b = platformsScore cfg b a := by
  unfold platformsScore
  rw [Finset.inter_comm]

theorem licenseScore_comm (cfg : Config)
    (ld : Option (List (String × LicenseEntry))) (a b : Application) :
    licenseScore cfg ld a b = licenseScore cfg ld b a := by
  unfold licenseScore
  refine if_congr Iff.rfl (if_congr ?_ (if_congr ?_ rfl rfl) rfl) rfl
  · exact iff_of_eq (congrArg (· = true) (Bool.and_comm _ _))
  · exact eq_comm

theorem popularityScore_comm (cfg : Config) (a b : Application) :
    popularityScore cfg a b = popularityScore cfg b a := by
  unfold popularityScore
  by_cases hE : cfg.popularity_enabled
  · cases a.stars with
    | none => cases b.stars <;> simp [hE]
    | some sa =>
      cases b.stars with
      | none => simp [hE]
      | some sb =>
        simp only [hE, eq_self_iff_true, if_true]
        refine if_congr ?_ rfl rfl
        constructor
        · rintro ⟨h1, h2, h3⟩
          exact ⟨h2, h1, h3.symm⟩
        · rintro ⟨h1, h2, h3⟩
          exact ⟨h2, h1, h3.symm⟩
  · simp [hE]

theorem dependenciesScore_comm (cfg : Config) (a b : Application) :
    dependenciesScore cfg a b = dependenciesScore cfg b a := by
  unfold dependenciesScore
  refine if_congr Iff.rfl (if_congr ?_ rfl rfl) rfl
  exact eq_comm

/-- **C10.** The per-pair total similarity score is symmetric: for every
configuration, license registry, phrase mapping and pair of distinct
applications, scoring `b` against target `a` gives the same total as scoring
`a` against target `b`. -/
theorem c10_totalScore_symm (cfg : Config)
    (ld : Option (List (String × LicenseEntry)))
    (phr : String → Finset String) (a b : Application) (_hab : a ≠ b) :
    totalScore cfg ld phr a b = totalScore cfg ld phr b a := by
  unfold totalScore
  rw [semanticScore_comm, categoriesScore_comm, alternativesScore_comm,
    forksScore_comm, platformsScore_comm, licenseScore_comm,
    popularityScore_comm, dependenciesScore_comm]

/-- **C9.** The phrase cache is transparent: a call with a warm cache
(populated by a previous call keyed to the same candidate-list identity)
returns exactly the result of a call with the cache cleared; the cold-cache
result is the plain `find_related_apps` result; and (when semantic similarity
is enabled) the cached mapping is exactly `precompute_app_phrases` of the
candidate list. -/
theorem c9_cache_transparent (cfg : Config)
    (ld : Option (List (String × LicenseEntry))) (listId : Nat)
    (t t' : Application) (apps : List Application) :
    (find_related_apps_cached cfg ld
        (find_related_apps_cached cfg ld clearedState listId t apps).2
        listId t' apps).1 =
      (find_related_apps_cached cfg ld clearedState listId t' apps).1 ∧
    (find_related_apps_cached cfg ld clearedState listId t' apps).1 =
      find_related_apps cfg ld t' apps ∧
    (cfg.semantic_similarity_enabled = true →
      (find_related_apps_cached cfg ld clearedState listId t apps).2.cached_app_phrases =
        some (precompute_app_phrases apps)) := by
  by_cases hE : cfg.semantic_similarity_enabled <;>
    simp [find_related_apps_cached, clearedState, find_related_apps,
      appPhrasesFor, hE]

/-! ## Popularity tiers -/

theorem get_popularity_tier_eq_iff (x y : Nat) :
    get_popularity_tier x = get_popularity_tier y ↔
      ((10000 ≤ x ↔ 10000 ≤ y) ∧ (5000 ≤ x ↔ 5000 ≤ y) ∧
       (1000 ≤ x ↔ 1000 ≤ y) ∧ (100 ≤ x ↔ 100 ≤ y)) := by
  unfold get_popularity_tier
  split_ifs <;> constructor <;> intro h <;>
    first
    | rfl
    | omega
    | exact absurd h (by decide)



/-- **C5, counterexample.** Both applications have a star count (`some 0`) and
are in the same popularity tier, yet the popularity signal contributes `0`
rather than the configured `same_tier_score = 1`: the code's truthiness test
`app.stars and target_app.stars` rejects a star count of `0`. -/
theorem c5_counterexample :
    zeroStarsA.stars.isSome = true ∧ zeroStarsB.stars.isSome = true ∧
    get_popularity_tier 0 = get_popularity_tier 0 ∧
    ({} : Config).popularity_enabled = true ∧
    ({} : Config).popularity_same_tier_score = 1 ∧
    popularityScore {} zeroStarsA zeroStarsB = 0 := by
  decide

/-- **C5, amended.** For every pair of applications that both have a *positive*
star count, the popularity signal contributes `same_tier_score` exactly when
both fall into the same tier, where the tiers are given by inclusive lower
bounds 10000/5000/1000/100 on stars; and 12000 and 9000 stars fall in
different tiers. -/
theorem c5_popularity_parity (cfg : Config) (a b : Application) (ts bs : Nat)
    (hE : cfg.popularity_enabled = true) (ha : a.stars = some ts)
    (hb : b.stars = some bs) (hts : 0 < ts) (hbs : 0 < bs) :
    popularityScore cfg a b =
      (if (10000 ≤ ts ↔ 10000 ≤ bs) ∧ (5000 ≤ ts ↔ 5000 ≤ bs) ∧
          (1000 ≤ ts ↔ 1000 ≤ bs) ∧ (100 ≤ ts ↔ 100 ≤ bs) then
        cfg.popularity_same_tier_score
      else 0) ∧
    get_popularity_tier 12000 ≠ get_popularity_tier 9000 := by
  constructor
  · unfold popularityScore
    rw [ha, hb]
    simp only [hE, if_true, eq_self_iff_true]
    refine if_congr ?_ rfl rfl
    constructor
    · rintro ⟨_, _, h3⟩
      exact (get_popularity_tier_eq_iff ts bs).1 h3
    · intro h
      exact ⟨by omega, by omega, (get_popularity_tier_eq_iff ts bs).2 h⟩
  · decide



theorem c5_popularity_parity_witness :
    popularityScore {} megaA megaB =
      (if (10000 ≤ 12000 ↔ 10000 ≤ 11000) ∧ (5000 ≤ 12000 ↔ 5000 ≤ 11000) ∧
          (1000 ≤ 12000 ↔ 1000 ≤ 11000) ∧ (100 ≤ 12000 ↔ 100 ≤ 11000) then
        ({} : Config).popularity_same_tier_score
      else 0) ∧
    get_popularity_tier 12000 ≠ get_popularity_tier 9000 :=
  c5_popularity_parity {} megaA megaB 12000 11000 rfl rfl rfl
    (by norm_num) (by norm_num)

/-- **C6.** `is_app_nonfree` with no license registry: the claimed behaviour is
a literal match against "⊘ Proprietary" (U+2298, as used by
`template_helpers.py` line 130), but the marker literal in
`related_apps.py` line 546 is the mojibake "âŠ˜ Proprietary", so an
application tagged with the real marker is classified as free. -/
theorem c6_proprietary_marker_bug :
    is_app_nonfree none
        { id := "p", name := "P", license := ["⊘ Proprietary"] } = false ∧
    is_app_nonfree none
        { id := "p", name := "P", license := ["âŠ˜ Proprietary"] } = true ∧
    ("âŠ˜ Proprietary" : String) ≠ "⊘ Proprietary" ∧
    is_app_nonfree none { id := "q", name := "Q", license := [] } = false := by
  decide

/-! ## Character-level facts about normalization -/

theorem isUpper_toLower (c : Char) : (Char.toLower c).isUpper = false := by
  unfold Char.toLower
  dsimp only
  split
  next h =>
    obtain ⟨h1, h2⟩ := h
    generalize hn : c.toNat = n at h1 h2 ⊢
    interval_cases n <;> decide
  next h =>
    rw [Char.isUpper]
    simp only [Bool.and_eq_false_iff, decide_eq_false_iff_not]
    rw [Decidable.not_and_iff_or_not] at h
    rcases h with h | h
    · exact Or.inl fun hle => h hle
    · exact Or.inr fun hle => h hle

theorem subChar_eq_or (c : Char) : subChar c = c ∨ subChar c = ' ' := by
  unfold subChar
  split
  · exact Or.inl rfl
  · exact Or.inr rfl

theorem subChar_kept {c : Char} (h : subChar c = c)
    (hs : isSpaceChar c = false) : isWordChar c = true ∨ c = '-' := by
  unfold subChar at h
  split at h
  next hg =>
    rcases Bool.or_eq_true _ _ |>.mp hg with hg | hg
    · rcases Bool.or_eq_true _ _ |>.mp hg with hg | hg
      · exact Or.inl hg
      · rw [hg] at hs
        cases hs
    · exact Or.inr (by simpa using hg)
  next =>
    rw [← h] at hs
    simp [isSpaceChar] at hs

theorem mem_collapseAux :
    ∀ (b : Bool) (l : List Char) (c : Char), c ∈ collapseAux b l →
      c = ' ' ∨ (c ∈ l ∧ isSpaceChar c = false)
  | _, [], c, h => absurd h (List.not_mem_nil c)
  | b, d :: ds, c, h => by
    unfold collapseAux at h
    split at h
    next hd =>
      split at h
      · rcases mem_collapseAux true ds c h with h' | ⟨h1, h2⟩
        · exact Or.inl h'
        · exact Or.inr ⟨List.mem_cons_of_mem d h1, h2⟩
      · rcases List.mem_cons.1 h with rfl | h'
        · exact Or.inl rfl
        · rcases mem_collapseAux true ds c h' with h' | ⟨h1, h2⟩
          · exact Or.inl h'
          · exact Or.inr ⟨List.mem_cons_of_mem d h1, h2⟩
    next hd =>
      rcases List.mem_cons.1 h with rfl | h'
      · exact Or.inr ⟨List.mem_cons_self c ds, by simpa using hd⟩
      · rcases mem_collapseAux false ds c h' with h' | ⟨h1, h2⟩
        · exact Or.inl h'
        · exact Or.inr ⟨List.mem_cons_of_mem d h1, h2⟩

theorem mem_stripChars {l : List Char} {c : Char} (h : c ∈ stripChars l) :
    c ∈ l := by
  unfold stripChars at h
  rw [List.mem_reverse] at h
  have h1 := (List.dropWhile_sublist _).subset h
  rw [List.mem_reverse] at h1
  exact (List.dropWhile_sublist _).subset h1

/-- Every character of normalized text is a (never upper-case) word character,
a hyphen, or a single space. -/
theorem normalizeText_chars {s : String} {c : Char}
    (h : c ∈ (normalizeText s).data) :
    c.isUpper = false ∧ (isWordChar c = true ∨ c = '-' ∨ c = ' ') := by
  unfold normalizeText at h
  have h1 := mem_stripChars h
  rcases mem_collapseAux false _ c h1 with rfl | ⟨h2, h3⟩
  · exact ⟨by decide, Or.inr (Or.inr rfl)⟩
  · rw [List.mem_map] at h2
    obtain ⟨c1, hc1, rfl⟩ := h2
    rw [List.mem_map] at hc1
    obtain ⟨c0, _, rfl⟩ := hc1
    rcases subChar_eq_or (Char.toLower c0) with he | he
    · rw [he] at h3 ⊢
      rcases subChar_kept he h3 with hw | hw
      · exact ⟨isUpper_toLower c0, Or.inl hw⟩
      · exact ⟨isUpper_toLower c0, Or.inr (Or.inl hw)⟩
    · rw [he] at h3
      cases h3

/-! ## Facts about `str.split()` and the n-gram windows -/

theorem wordsAux_sound :
    ∀ (l acc w : List Char), w ∈ wordsAux acc l →
      w ≠ [] ∧ ∀ c ∈ w, c ∈ acc ∨ c ∈ l
  | [], acc, w, h => by
    unfold wordsAux at h
    split at h
    · cases h
    next hne =>
      rcases List.mem_singleton.1 h with rfl
      refine ⟨?_, ?_⟩
      · simpa [List.isEmpty_iff] using hne
      · intro c hc
        exact Or.inl (List.mem_reverse.1 hc)
  | d :: ds, acc, w, h => by
    unfold wordsAux at h
    split at h
    next hd =>
      split at h
      next hacc =>
        obtain ⟨hne, hsub⟩ := wordsAux_sound ds [] w h
        refine ⟨hne, fun c hc => ?_⟩
        rcases hsub c hc with h' | h'
        · cases h'
        · exact Or.inr (List.mem_cons_of_mem d h')
      next hacc =>
        rcases List.mem_cons.1 h with rfl | h'
        · refine ⟨?_, fun c hc => Or.inl (List.mem_reverse.1 hc)⟩
          simpa [List.isEmpty_iff] using hacc
        · obtain ⟨hne, hsub⟩ := wordsAux_sound ds [] w h'
          refine ⟨hne, fun c hc => ?_⟩
          rcases hsub c hc with h'' | h''
          · cases h''
          · exact Or.inr (List.mem_cons_of_mem d h'')
    next hd =>
      obtain ⟨hne, hsub⟩ := wordsAux_sound ds (d :: acc) w h
      refine ⟨hne, fun c hc => ?_⟩
      rcases hsub c hc with h' | h'
      · rcases List.mem_cons.1 h' with rfl | h''
        · exact Or.inr (List.mem_cons_self c ds)
        · exact Or.inl h''
      · exact Or.inr (List.mem_cons_of_mem d h')

theorem wordsAux_nospace :
    ∀ (l acc w : List Char), (∀ c ∈ acc, isSpaceChar c = false) →
      w ∈ wordsAux acc l → ∀ c ∈ w, isSpaceChar c = false
  | [], acc, w, hacc, h => by
    unfold wordsAux at h
    split at h
    · cases h
    · rcases List.mem_singleton.1 h with rfl
      intro c hc
      exact hacc c (List.mem_reverse.1 hc)
  | d :: ds, acc, w, hacc, h => by
    unfold wordsAux at h
    split at h
    next hd =>
      split at h
      · exact wordsAux_nospace ds [] w (by simp) h
      · rcases List.mem_cons.1 h with rfl | h'
        · intro c hc
          exact hacc c (List.mem_reverse.1 hc)
        · exact wordsAux_nospace ds [] w (by simp) h'
    next hd =>
      refine wordsAux_nospace ds (d :: acc) w ?_ h
      intro c hc
      rcases List.mem_cons.1 hc with rfl | hc'
      · simpa using hd
      · exact hacc c hc'

/-- Words produced by `str.split()` are nonempty, contain no whitespace, and
draw their characters from the input. -/
theorem mem_pySplit {s : String} {w : String} (h : w ∈ pySplit s) :
    w ≠ "" ∧ ∀ c ∈ w.data, c ∈ s.data ∧ isSpaceChar c = false := by
  unfold pySplit at h
  rw [List.mem_map] at h
  obtain ⟨l, hl, rfl⟩ := h
  obtain ⟨hne, hsub⟩ := wordsAux_sound s.data [] l hl
  have hns := wordsAux_nospace s.data [] l (by simp) hl
  refine ⟨?_, fun c hc => ?_⟩
  · intro hcon
    exact hne (congrArg String.data hcon)
  · rcases hsub c hc with h' | h'
    · cases h'
    · exact ⟨h', hns c hc⟩

theorem windowsOf_mem :
    ∀ (L : Nat) (ws win : List String), win ∈ windowsOf L ws →
      win.length = L ∧ ∀ x ∈ win, x ∈ ws
  | _, [], _, h => absurd h (List.not_mem_nil _)
  | L, w :: ws, win, h => by
    unfold windowsOf at h
    split at h
    · cases h
    next hlen =>
      rcases List.mem_cons.1 h with rfl | h'
      · constructor
        · rw [List.length_take]
          omega
        · exact fun x hx => List.take_subset L (w :: ws) hx
      · obtain ⟨h1, h2⟩ := windowsOf_mem L ws win h'
        exact ⟨h1, fun x hx => List.mem_cons_of_mem w (h2 x hx)⟩

theorem windowsOf_one : ∀ (ws : List String),
    windowsOf 1 ws = ws.map fun w => [w]
  | [] => rfl
  | w :: ws => by
    unfold windowsOf
    rw [if_neg (by simp)]
    rw [windowsOf_one ws]
    rfl

/-! ## Facts about `" ".join` -/

theorem joinSp_chars :
    ∀ (ws : List String) (c : Char), c ∈ (joinSp ws).data →
      (∃ w ∈ ws, c ∈ w.data) ∨ c = ' '
  | [], c, h => absurd h (List.not_mem_nil c)
  | [w], c, h => Or.inl ⟨w, List.mem_singleton.2 rfl, h⟩
  | w :: w2 :: rest, c, h => by
    have : (joinSp (w :: w2 :: rest)).data =
        w.data ++ (" ".data ++ (joinSp (w2 :: rest)).data) := by
      show (w ++ " " ++ joinSp (w2 :: rest)).data = _
      rw [String.data_append, String.data_append, List.append_assoc]
    rw [this] at h
    rcases List.mem_append.1 h with h' | h'
    · exact Or.inl ⟨w, List.mem_cons_self _ _, h'⟩
    · rcases List.mem_append.1 h' with h'' | h''
      · exact Or.inr (List.mem_singleton.1 h'')
      · rcases joinSp_chars (w2 :: rest) c h'' with ⟨x, hx, hcx⟩ | h'''
        · exact Or.inl ⟨x, List.mem_cons_of_mem w hx, hcx⟩
        · exact Or.inr h'''

theorem joinSp_has_space (w1 w2 : String) (rest : List String) :
    ' ' ∈ (joinSp (w1 :: w2 :: rest)).data := by
  show ' ' ∈ (w1 ++ " " ++ joinSp (w2 :: rest)).data
  rw [String.data_append, String.data_append]
  exact List.mem_append.2 (Or.inl (List.mem_append.2 (Or.inr (by simp))))

/-! ## Membership in the extracted phrase set -/

theorem mem_lengthCandidates {L : Nat} {ws : List String} {p : String} :
    p ∈ lengthCandidates L ws ↔
      ∃ win ∈ windowsOf L ws, p = joinSp win ∧
        ¬(L = 1 ∧ is_generic_word (joinSp win) = true) ∧
        is_significant_phrase (joinSp win) L = true := by
  unfold lengthCandidates
  rw [List.mem_filterMap]
  constructor
  · rintro ⟨win, hwin, hf⟩
    dsimp only at hf
    split at hf
    next => cases hf
    next h1 =>
      split at hf
      next h2 =>
        injection hf with hf
        refine ⟨win, hwin, hf.symm, ?_, h2⟩
        simpa [Bool.and_eq_true, decide_eq_true_eq] using h1
      next => cases hf
  · rintro ⟨win, hwin, rfl, h1, h2⟩
    refine ⟨win, hwin, ?_⟩
    dsimp only
    rw [if_neg, if_pos h2]
    simpa [Bool.and_eq_true, decide_eq_true_eq] using h1

theorem mem_extract {d : String} (hd : d ≠ "") {p : String} :
    p ∈ extract_significant_phrases (some d) ↔
      ∃ L ∈ [1, 2, 3, 4], p ∈ lengthCandidates L (pySplit (normalizeText d)) := by
  unfold extract_significant_phrases
  dsimp only
  rw [if_neg hd]
  simp only [List.mem_toFinset, List.mem_flatten, List.mem_map]
  constructor
  · rintro ⟨l', ⟨L, hL, rfl⟩, hp⟩
    exact ⟨L, hL, hp⟩
  · rintro ⟨L, hL, hp⟩
    exact ⟨_, ⟨L, hL, rfl⟩, hp⟩

theorem extract_chars {d : String} (hd : d ≠ "") {p : String}
    (h : p ∈ extract_significant_phrases (some d)) :
    ∀ c ∈ p.data, c ∈ (normalizeText d).data ∨ c = ' ' := by
  obtain ⟨L, _, hp⟩ := (mem_extract hd).1 h
  obtain ⟨win, hwin, rfl, -, -⟩ := mem_lengthCandidates.1 hp
  intro c hc
  rcases joinSp_chars win c hc with ⟨w, hw, hcw⟩ | rfl
  · obtain ⟨-, hsub⟩ := windowsOf_mem L _ win hwin
    exact Or.inl ((mem_pySplit (hsub w hw)).2 c hcw).1
  · exact Or.inr rfl

theorem hasCapitalizedWord_eq_false {p : String}
    (h : ∀ c ∈ p.data, c.isUpper = false) : hasCapitalizedWord p = false := by
  unfold hasCapitalizedWord
  rw [List.any_eq_false]
  intro w hw
  rw [List.mem_filter] at hw
  obtain ⟨hw, -⟩ := hw
  obtain ⟨-, hchars⟩ := mem_pySplit hw
  cases hd : w.data with
  | nil => simp [hd]
  | cons c cs =>
    simp only [Bool.not_eq_true]
    exact h c (hchars c (by rw [hd]; exact List.mem_cons_self c cs)).1


/-- **C4.** Every phrase produced by the extractor is fully lowercased, so the
capitalization condition of `_calculate_phrase_weight` is false on every
phrase reaching the weighting function, and the ×1.2 boost branch is
unreachable: the weight equals the weight computed without that step. -/
theorem c4_capitalization_boost_unreachable (d : Option String) (p : String)
    (hp : p ∈ extract_significant_phrases d) :
    hasCapitalizedWord p = false ∧
    calculate_phrase_weight p = calculate_phrase_weight_nocap p := by
  have hfalse : hasCapitalizedWord p = false := by
    match d with
    | none => simp [extract_significant_phrases] at hp
    | some s =>
      by_cases hs : s = ""
      · rw [hs] at hp
        simp [extract_significant_phrases] at hp
      · apply hasCapitalizedWord_eq_false
        intro c hc
        rcases extract_chars hs hp c hc with h' | rfl
        · exact (normalizeText_chars h').1
        · decide
  refine ⟨hfalse, ?_⟩
  unfold calculate_phrase_weight calculate_phrase_weight_nocap
  simp only [hfalse, Bool.false_eq_true, if_false]

/-- **C7.** A single word `w` (no space) is an element of the extracted phrase
set iff it occurs in the word list of the normalized text, has length > 3, is
not purely numeric and is not in the generic single-word denylist; and the
denylisted word "open-source" is never an element of any extracted set. -/
theorem c7_single_word_phrases :
    (∀ (d w : String), ' ' ∉ w.data →
      (w ∈ extract_significant_phrases (some d) ↔
        w ∈ pySplit (normalizeText d) ∧ 3 < w.length ∧
        pyIsDigit w = false ∧ is_generic_word w = false)) ∧
    (∀ d : Option String, "open-source" ∉ extract_significant_phrases d) := by
  have part1 : ∀ (d w : String), ' ' ∉ w.data →
      (w ∈ extract_significant_phrases (some d) ↔
        w ∈ pySplit (normalizeText d) ∧ 3 < w.length ∧
        pyIsDigit w = false ∧ is_generic_word w = false) := by
    intro d w hnosp
    by_cases hd : d = ""
    · subst hd
      have h1 : extract_significant_phrases (some "") = ∅ := rfl
      have h2 : pySplit (normalizeText "") = [] := rfl
      rw [h1, h2]
      simp
    · rw [mem_extract hd]
      constructor
      · rintro ⟨L, -, hw⟩
        obtain ⟨win, hwin, rfl, h1, h2⟩ := mem_lengthCandidates.1 hw
        obtain ⟨hlen, hsub⟩ := windowsOf_mem L _ win hwin
        match win with
        | [] =>
          exfalso
          have hL0 : L = 0 := by simpa using hlen.symm
          subst hL0
          rw [show is_significant_phrase (joinSp []) 0 = false from rfl] at h2
          cases h2
        | [x] =>
          have hL1 : L = 1 := by simpa using hlen.symm
          subst hL1
          have hx : x ∈ pySplit (normalizeText d) := hsub x (by simp)
          rw [show joinSp [x] = x from rfl] at h2
          rw [show is_significant_phrase x 1 =
            (decide (3 < x.length) && !pyIsDigit x && !is_generic_word x)
            from rfl] at h2
          simp only [Bool.and_eq_true, decide_eq_true_eq,
            Bool.not_eq_true'] at h2
          exact ⟨hx, h2.1.1, h2.1.2, h2.2⟩
        | x :: y :: rest =>
          exact absurd (joinSp_has_space x y rest) hnosp
      · rintro ⟨hmem, hlen, hdig, hgen⟩
        refine ⟨1, by simp, ?_⟩
        rw [mem_lengthCandidates]
        refine ⟨[w], ?_, rfl, ?_, ?_⟩
        · rw [windowsOf_one]
          exact List.mem_map.2 ⟨w, hmem, rfl⟩
        · rintro ⟨-, hg⟩
          rw [show joinSp [w] = w from rfl, hgen] at hg
          cases hg
        · rw [show joinSp [w] = w from rfl]
          simp [is_significant_phrase, hlen, hdig, hgen]
  refine ⟨part1, ?_⟩
  intro d hmem
  match d with
  | none => simp [extract_significant_phrases] at hmem
  | some s =>
    have h := (part1 s "open-source" (by decide)).1 hmem
    have : is_generic_word "open-source" = true := by decide
    rw [h.2.2.2] at this
    cases this

/-! ## Structure of the normalized text (collapse and strip) -/

theorem collapseAux_true_head :
    ∀ (l : List Char) (c : Char), (collapseAux true l).head? = some c →
      isSpaceChar c = false
  | [], c, h => by cases h
  | d :: ds, c, h => by
    unfold collapseAux at h
    split at h
    next hd => exact collapseAux_true_head ds c h
    next hd =>
      rw [List.head?_cons, Option.some.injEq] at h
      rw [← h]
      simpa using hd

theorem chain'_collapseAux :
    ∀ (b : Bool) (l : List Char),
      List.Chain' (fun x y => ¬(x = ' ' ∧ y = ' ')) (collapseAux b l)
  | _, [] => List.chain'_nil
  | b, d :: ds => by
    unfold collapseAux
    split
    next hd =>
      split
      · exact chain'_collapseAux true ds
      · rw [List.chain'_cons']
        refine ⟨?_, chain'_collapseAux true ds⟩
        intro y hy
        rintro ⟨-, rfl⟩
        have := collapseAux_true_head ds ' ' hy
        simp [isSpaceChar] at this
    next hd =>
      rw [List.chain'_cons']
      refine ⟨?_, chain'_collapseAux false ds⟩
      intro y hy
      rintro ⟨rfl, -⟩
      simp [isSpaceChar] at hd

theorem head?_dropWhile {p : Char → Bool} :
    ∀ (l : List Char) (c : Char), (l.dropWhile p).head? = some c → p c = false
  | [], c, h => by cases h
  | d :: ds, c, h => by
    rw [List.dropWhile_cons] at h
    split at h
    next => exact head?_dropWhile ds c h
    next hd =>
      rw [List.head?_cons, Option.some.injEq] at h
      rw [← h]
      simpa using hd

theorem getLast?_of_suffix {l₁ l₂ : List Char} (h : l₁ <:+ l₂) (hne : l₁ ≠ []) :
    l₁.getLast? = l₂.getLast? := by
  obtain ⟨t, rfl⟩ := h
  rw [List.getLast?_append_of_ne_nil t hne]

theorem stripChars_within (l : List Char) : stripChars l <:+: l := by
  unfold stripChars
  have h1 : l.dropWhile isSpaceChar <:+ l := List.dropWhile_suffix _
  have h2 : (l.dropWhile isSpaceChar).reverse.dropWhile isSpaceChar <:+
      (l.dropWhile isSpaceChar).reverse := List.dropWhile_suffix _
  have h3 := h2.reverse
  rw [List.reverse_reverse] at h3
  exact h3.isInfix.trans h1.isInfix

/-- **C8, counterexample.** The normalization step keeps underscores: `_` is
not alphanumeric, not whitespace and not a hyphen, so the claim requires it to
be replaced by a space (giving `"a b"`), but the code's character class is
regex `\w`, which includes `_`, so `"a_b"` normalizes to itself. -/
theorem c8_counterexample :
    normalizeText "a_b" = "a_b" ∧ Char.isAlphanum '_' = false ∧
    isSpaceChar '_' = false ∧ ('_' : Char) ≠ '-' ∧
    ("a_b" : String) ≠ "a b" := by
  decide

/-- **C8, amended.** Normalization lowercases, replaces every character that
is not alphanumeric, *underscore*, whitespace, or hyphen with a space,
collapses whitespace runs to a single space and trims the ends: every output
character is a lowercase word character, hyphen or space, no two spaces are
adjacent, the ends are not spaces; it is total, and empty or `None`
descriptions yield the empty phrase set. -/
theorem c8_normalization (s : String) :
    (∀ c ∈ (normalizeText s).data,
      (Char.isAlphanum c = true ∨ c = '_' ∨ c = '-' ∨ c = ' ') ∧
      c.isUpper = false) ∧
    List.Chain' (fun x y => ¬(x = ' ' ∧ y = ' ')) (normalizeText s).data ∧
    (normalizeText s).data.head? ≠ some ' ' ∧
    (normalizeText s).data.getLast? ≠ some ' ' ∧
    extract_significant_phrases none = ∅ ∧
    extract_significant_phrases (some "") = ∅ := by
  refine ⟨?_, ?_, ?_, ?_, rfl, rfl⟩
  · intro c hc
    obtain ⟨hup, hw⟩ := normalizeText_chars hc
    refine ⟨?_, hup⟩
    rcases hw with hw | hw | hw
    · rcases Bool.or_eq_true _ _ |>.mp hw with hw | hw
      · exact Or.inl hw
      · exact Or.inr (Or.inl (by simpa using hw))
    · exact Or.inr (Or.inr (Or.inl hw))
    · exact Or.inr (Or.inr (Or.inr hw))
  · show List.Chain' _
      (stripChars (collapseWs ((s.data.map Char.toLower).map subChar)))
    exact List.Chain'.infix (chain'_collapseAux false _) (stripChars_within _)
  · show (stripChars
      (collapseWs ((s.data.map Char.toLower).map subChar))).head? ≠ some ' '
    unfold stripChars
    intro hcon
    rw [List.head?_reverse] at hcon
    set A := (collapseWs ((s.data.map Char.toLower).map subChar)).dropWhile
      isSpaceChar with hA
    have hBne : A.reverse.dropWhile isSpaceChar ≠ [] := by
      intro h0
      rw [h0] at hcon
      cases hcon
    have := getLast?_of_suffix (List.dropWhile_suffix isSpaceChar) hBne
    rw [hcon, List.getLast?_reverse] at this
    have hhead := head?_dropWhile _ ' ' this.symm
    simp [isSpaceChar] at hhead
  · show (stripChars
      (collapseWs ((s.data.map Char.toLower).map subChar))).getLast? ≠ some ' '
    unfold stripChars
    intro hcon
    rw [List.getLast?_reverse] at hcon
    have hhead := head?_dropWhile _ ' ' hcon
    simp [isSpaceChar] at hhead

/-! ## Concrete witnesses -/








theorem c1_result_contract_witness :
    bW.id ≠ tW.id ∧
    ({} : Config).min_score ≤ totalScore {} none (appPhrasesFor {} appsW) tW bW := by
  have hsc : scoredCandidates {} none (appPhrasesFor {} appsW) tW appsW =
      [(bW, 5)] := by decide
  have hfr : find_related_apps {} none tW appsW = [bW] := by
    unfold find_related_apps findRelatedCore sortedCandidates
    rw [hsc, List.mergeSort_singleton]
    rfl
  exact (c1_result_contract {} none tW appsW).2 bW
    (by rw [hfr]; exact List.mem_singleton.2 rfl)

theorem c2_sort_order_witness :
    List.Sublist [(b1W, (5 : ℤ)), (b2W, (5 : ℤ))]
      (sortedCandidates {} none (appPhrasesFor {} apps2W) tW apps2W) :=
  (c2_sort_order {} none (appPhrasesFor {} apps2W) tW apps2W).2.1
    (b1W, 5) (b2W, 5) (by decide) (by decide)

theorem c3_semantic_bounds_witness :
    calculate_semantic_similarity tW bW phrW =
      min (intTrunc ((phrW tW.id ∩ phrW bW.id).sum calculate_phrase_weight))
        25 :=
  (c3_semantic_bounds tW bW phrW).2.2.2 (by decide)

theorem c4_capitalization_boost_unreachable_witness :
    hasCapitalizedWord "sync" = false ∧
    calculate_phrase_weight "sync" = calculate_phrase_weight_nocap "sync" :=
  c4_capitalization_boost_unreachable (some "file sync") "sync" (by decide)

theorem c7_single_word_phrases_witness :
    ("sync" : String) ∈ extract_significant_phrases (some "file sync") :=
  (c7_single_word_phrases.1 "file sync" "sync" (by decide)).mpr
    ⟨by decide, by decide, by decide, by decide⟩

theorem c8_normalization_witness :
    ((Char.isAlphanum 'x' = true ∨ ('x' : Char) = '_' ∨ ('x' : Char) = '-' ∨
        ('x' : Char) = ' ') ∧ Char.isUpper 'x' = false) ∧
    List.Chain' (fun a b => ¬(a = ' ' ∧ b = ' ')) (normalizeText "x y").data :=
  ⟨(c8_normalization "x y").1 'x' (by decide), (c8_normalization "x y").2.1⟩

theorem c9_cache_transparent_witness :
    (find_related_apps_cached {} none
        (find_related_apps_cached {} none clearedState 7 tW appsW).2
        7 bW appsW).1 =
      (find_related_apps_cached {} none clearedState 7 bW appsW).1 ∧
    (find_related_apps_cached {} none clearedState 7 tW appsW).2.cached_app_phrases =
      some (precompute_app_phrases appsW) :=
  ⟨(c9_cache_transparent {} none 7 tW bW appsW).1,
   (c9_cache_transparent {} none 7 tW bW appsW).2.2 rfl⟩

theorem c10_totalScore_symm_witness :
    totalScore {} none phrW tW bW = totalScore {} none phrW bW tW :=
  c10_totalScore_symm {} none phrW tW bW (by decide)
